import Mathlib

/-!
Shallow embedding of the obsidian-mcp boilerplate server
(src/obsidian_mcp/{config,tools/custom,tools/navigation,tools/time}.py).

Modelling conventions:
* Absolute filesystem paths are lists of path segments (`List String`);
  `pathStr` renders them the way `str(pathlib.Path(...))` does.
* Python `datetime` values (as produced by `datetime.fromtimestamp` on a
  file's `st_mtime`) are modelled at second granularity by `PyDateTime`;
  `fmtTime` is `strftime("%Y-%m-%d %H:%M:%S")`.
* A flat filesystem (for the target-folder tools and the marker-file
  loaders) is an association list from normalized absolute paths to nodes;
  the vault tree walked by `os.walk` is modelled by `DirTree`, whose
  `readable` flag records whether `scandir` succeeds on that directory.
* Every tool body is wrapped in `try/except Exception: raise ToolError(...)`;
  accordingly each modelled operation returns `Except ToolError α` and an
  inner `ToolError` raised by the body is re-wrapped exactly as the code
  re-wraps it (the outer handler catches the inner `ToolError` too).
-/

/-- A Python `datetime` truncated to whole seconds (the granularity at which
`strftime("%Y-%m-%d %H:%M:%S")` reports it). -/
structure PyDateTime where
  year : Nat
  month : Nat
  day : Nat
  hour : Nat
  minute : Nat
  second : Nat
deriving DecidableEq, Repr

/-- Component ranges of a well-formed `datetime` value (four-digit year, as
required by `datetime`'s `strftime` on the platforms the server targets). -/
def PyDateTime.valid (d : PyDateTime) : Prop :=
  1000 ≤ d.year ∧ d.year ≤ 9999 ∧ 1 ≤ d.month ∧ d.month ≤ 12 ∧
    1 ≤ d.day ∧ d.day ≤ 31 ∧ d.hour ≤ 23 ∧ d.minute ≤ 59 ∧ d.second ≤ 59

instance (d : PyDateTime) : Decidable d.valid := by
  unfold PyDateTime.valid; infer_instance

/-- Strict chronological order on datetimes (lexicographic by component). -/
def dtLt (a b : PyDateTime) : Prop :=
  a.year < b.year ∨ (a.year = b.year ∧
    (a.month < b.month ∨ (a.month = b.month ∧
      (a.day < b.day ∨ (a.day = b.day ∧
        (a.hour < b.hour ∨ (a.hour = b.hour ∧
          (a.minute < b.minute ∨ (a.minute = b.minute ∧
            a.second < b.second)))))))))

instance (a b : PyDateTime) : Decidable (dtLt a b) := by
  unfold dtLt; infer_instance

/-- Chronological order, non-strict. -/
def dtLe (a b : PyDateTime) : Prop := dtLt a b ∨ a = b

/-- Two-digit zero-padded decimal rendering (`%m`, `%d`, `%H`, `%M`, `%S`). -/
def pad2 (n : Nat) : List Char := [Nat.digitChar (n / 10), Nat.digitChar (n % 10)]

/-- `strftime("%Y-%m-%d %H:%M:%S")` as a character list; the four-digit year
is rendered as two two-digit blocks. -/
def fmtChars (d : PyDateTime) : List Char :=
  pad2 (d.year / 100) ++ (pad2 (d.year % 100) ++
    '-' :: (pad2 d.month ++ '-' :: (pad2 d.day ++
      ' ' :: (pad2 d.hour ++ ':' :: (pad2 d.minute ++ ':' :: pad2 d.second)))))

/-- `strftime("%Y-%m-%d %H:%M:%S")`. -/
def fmtTime (d : PyDateTime) : String := String.mk (fmtChars d)

/-- Python string comparison `s < t`: lexicographic on code points, a strict
proper prefix being smaller. -/
def clexLt : List Char → List Char → Bool
  | [], [] => false
  | [], _ :: _ => true
  | _ :: _, [] => false
  | a :: as, b :: bs => if a < b then true else if a = b then clexLt as bs else false

/-- `str.lower()` restricted to ASCII (the only case folding the marker and
extension strings in this server exercise). -/
def pyLower (s : String) : String := String.mk (s.data.map Char.toLower)

/-- Helper for `pySuffix`: scan the reversed name, accumulating the characters
that follow the last dot; mirrors `name[name.rfind('.'):]` guarded by
`0 < rfind < len(name) - 1` (pathlib's `PurePath.suffix`). -/
def sufGo : List Char → List Char → List Char
  | _, [] => []
  | acc, c :: rest =>
    if c = '.' then (if acc ≠ [] ∧ rest ≠ [] then '.' :: acc else [])
    else sufGo (c :: acc) rest

/-- `pathlib.PurePath(name).suffix`: the final component's last extension,
including the dot; empty for names with no dot, a leading dot only, or a
trailing dot. -/
def pySuffix (s : String) : String := String.mk (sufGo [] s.data.reverse)

/-- The single uniform error type: `fastmcp.exceptions.ToolError` carrying its
message string. -/
structure ToolError where
  msg : String
deriving DecidableEq, Repr

/-- A filesystem node: a regular file (with decoded UTF-8 content, `st_mtime`
at second granularity and `st_size`) or a directory. -/
inductive PyNode where
  | file (content : String) (mtime : PyDateTime) (size : Nat)
  | dir
deriving DecidableEq, Repr

def PyNode.isFile : PyNode → Bool
  | .file _ _ _ => true
  | .dir => false

/-- A flat filesystem: association list from normalized absolute paths
(segment lists) to nodes; list order is the directory-traversal order the OS
reports. -/
abbrev FS := List (List String × PyNode)

/-- POSIX path resolution of `..` segments performed by the OS when a path is
opened (`/..` stays at the root, as on POSIX). -/
def normSegs (p : List String) : List String :=
  p.foldl (fun acc s => if s = ".." then acc.dropLast else acc ++ [s]) []

/-- Look a path up in the filesystem, resolving `..` the way the OS does. -/
def fsFind (fs : FS) (p : List String) : Option PyNode := List.lookup (normSegs p) fs

/-- The direct children of a directory path, in filesystem order (models
`Path.iterdir`). -/
def childrenOf (fs : FS) (d : List String) : List (String × PyNode) :=
  fs.filterMap fun kv =>
    if kv.1 ≠ [] ∧ kv.1.dropLast = d then some (kv.1.getLastD "", kv.2) else none

/-- `str(...)` of an absolute pathlib path built from these segments. -/
def pathStr (p : List String) : String := p.foldl (fun acc s => acc ++ "/" ++ s) ""

/-- Split a character list at `'/'` (the splitting `str.split("/")` performs,
written structurally). -/
def splitSlashGo : List Char → List Char → List (List Char)
  | acc, [] => [acc.reverse]
  | acc, c :: rest =>
    if c = '/' then acc.reverse :: splitSlashGo [] rest else splitSlashGo (c :: acc) rest

/-- Split a caller-supplied string path into pathlib parts: empty and `"."`
components are dropped, `".."` is kept. -/
def splitArg (s : String) : List String :=
  ((splitSlashGo [] s.data).map String.mk).filter fun x => decide (x ≠ "" ∧ x ≠ ".")

/-- Whether the string denotes an absolute path (leading slash). -/
def isAbsPath (s : String) : Bool :=
  match s.data with
  | '/' :: _ => true
  | _ => false

/-- `pathlib`'s `/` operator joining a string onto an absolute base: an
absolute right operand replaces the base; no traversal sanitization. -/
def pyJoin (base : List String) (arg : String) : List String :=
  if isAbsPath arg then splitArg arg else base ++ splitArg arg

/-! Configuration constants from `config.py`. -/

def VAULT_PATH : List String :=
  ["Users", "chaosisnotrandomitisrythmic", "Documents", "obsedian", "chaos_isrhythmic"]

def TARGET_FOLDER : String := "Scanner Daybook"

def TARGET_FOLDER_PATH : List String := VAULT_PATH ++ [TARGET_FOLDER]

def VAULT_CLAUDE_MD : List String := VAULT_PATH ++ ["CLAUDE.md"]

def TARGET_CLAUDE_MD : List String := TARGET_FOLDER_PATH ++ ["CLAUDE.md"]

/-! ## The folder lister and file loader (`tools/custom.py`) -/

/-- One element of the `files` list built by `list_target_folder_files`. The
dict's `"modified"` entry is the string `fmtTime modified`; the record keeps
the underlying datetime, which `fmtTime` maps to the stored string. -/
structure PyFileEntry where
  name : String
  path : String
  size : Nat
  modified : PyDateTime
  extension : String
deriving DecidableEq, Repr

/-- The dictionary returned by `list_target_folder_files`. -/
structure ListFilesResult where
  target_folder : String
  folder_path : String
  files : List PyFileEntry
  total_count : Nat
  filter : String
deriving DecidableEq, Repr

/-- The dictionary returned by `load_target_folder_file`. -/
structure FileContentResult where
  filename : String
  path : String
  content : String
  size : Nat
  modified : PyDateTime
  target_folder : String
  loaded : Bool
deriving DecidableEq, Repr

/-- The dictionary returned by the three navigation loaders. -/
structure NavResult where
  path : String
  content : String
  loaded : Bool
  message : String
deriving DecidableEq, Repr

/-- The dictionary returned by `list_navigation_files`. -/
structure NavListResult where
  available_navigation : List String
  total_count : Nat
  vault_path : String
  target_folder : String
deriving DecidableEq, Repr

/-! Each tool's `except Exception as e: raise ToolError(f"...: {str(e)}")`
wraps whatever its body raised — including an inner `ToolError` — behind the
tool-specific context text. -/

def wrapListMsg (m : String) : String := "Failed to list target folder files: " ++ m

def wrapLoadMsg (filename m : String) : String :=
  "Failed to load file " ++ filename ++ ": " ++ m

def wrapNavMsg (m : String) : String := "Failed to load navigation context: " ++ m

def wrapTgtMsg (m : String) : String := "Failed to load target folder context: " ++ m

def wrapDiscMsg (m : String) : String :=
  "Failed to discover subdirectory navigation: " ++ m

/-- The extension filter of `list_target_folder_files`:
`not file_extension or item.suffix.lower() == f".{file_extension.lower()}"`. -/
def matchesFilter (ext : String) (name : String) : Bool :=
  if ext = "" then true
  else if pyLower (pySuffix name) = "." ++ pyLower ext then true else false

/-- The dict built for one matching regular file. -/
def mkEntry (name : String) (mt : PyDateTime) (sz : Nat) : PyFileEntry :=
  { name := name
    path := pathStr (TARGET_FOLDER_PATH ++ [name])
    size := sz
    modified := mt
    extension := pySuffix name }

/-- The loop body of `_list_files`: keep direct children that are regular
files and pass the extension filter. -/
def folderEntries (l : List (String × PyNode)) (ext : String) : List PyFileEntry :=
  l.filterMap fun nc =>
    match nc.2 with
    | PyNode.file _ mt sz =>
      if matchesFilter ext nc.1 then some (mkEntry nc.1 mt sz) else none
    | PyNode.dir => none

/-- Descending-by-key comparison used to model
`sorted(folder_files, key=lambda x: x["modified"], reverse=True)`: `a` may
stay before `b` when `b`'s key is not strictly greater. The key is the stored
`"modified"` string, i.e. `fmtChars` of the datetime. -/
def entGe (a b : PyFileEntry) : Prop :=
  clexLt (fmtChars a.modified) (fmtChars b.modified) = false

instance : DecidableRel entGe := fun a b => by unfold entGe; infer_instance

/-- CPython's `sorted(..., reverse=True)` is the stable descending sort; with
the total preorder `entGe` the stable insertion sort computes exactly it. -/
def pySortRev (l : List PyFileEntry) : List PyFileEntry := List.insertionSort entGe l

/-- `list_target_folder_files(file_extension)` from `tools/custom.py`. An
inner `ToolError` (target folder missing) is caught by the outer
`except Exception` and re-wrapped, which concatenates the two messages; if
the configured path exists but is a regular file, `iterdir` raises
`NotADirectoryError`, likewise re-wrapped. -/
def list_target_folder_files (fs : FS) (file_extension : String) :
    Except ToolError ListFilesResult :=
  match fsFind fs TARGET_FOLDER_PATH with
  | none =>
    .error ⟨wrapListMsg ("Target folder not found: " ++ pathStr TARGET_FOLDER_PATH)⟩
  | some (PyNode.file _ _ _) =>
    .error ⟨wrapListMsg ("[Errno 20] Not a directory: " ++ pathStr TARGET_FOLDER_PATH)⟩
  | some PyNode.dir =>
    let files := pySortRev (folderEntries (childrenOf fs TARGET_FOLDER_PATH) file_extension)
    .ok { target_folder := TARGET_FOLDER
          folder_path := pathStr TARGET_FOLDER_PATH
          files := files
          total_count := files.length
          filter := if file_extension = "" then "all files" else file_extension }

/-- The re-wrapped not-found message `load_target_folder_file` produces for a
missing path: the inner `ToolError` text inside the outer handler's text. -/
def loadNotFoundMsg (filename : String) : String :=
  wrapLoadMsg filename ("File not found: " ++ filename ++ " in " ++ TARGET_FOLDER)

/-- `load_target_folder_file(filename)` from `tools/custom.py`. The filename
is joined onto the target-folder path with no sanitization; `exists()` is
true for directories too, in which case `read_text` raises
`IsADirectoryError`, re-wrapped by the outer handler. -/
def load_target_folder_file (fs : FS) (filename : String) :
    Except ToolError FileContentResult :=
  match fsFind fs (pyJoin TARGET_FOLDER_PATH filename) with
  | none => .error ⟨loadNotFoundMsg filename⟩
  | some PyNode.dir =>
    .error ⟨wrapLoadMsg filename
      ("[Errno 21] Is a directory: " ++ pathStr (pyJoin TARGET_FOLDER_PATH filename))⟩
  | some (PyNode.file c mt sz) =>
    .ok { filename := filename
          path := pathStr (pyJoin TARGET_FOLDER_PATH filename)
          content := c
          size := sz
          modified := mt
          target_folder := TARGET_FOLDER
          loaded := true }

/-! ## The navigation loaders (`tools/navigation.py`) -/

/-- `load_navigation_context()`: the vault-root marker file is mandatory. -/
def load_navigation_context (fs : FS) : Except ToolError NavResult :=
  match fsFind fs VAULT_CLAUDE_MD with
  | none =>
    .error ⟨wrapNavMsg ("Navigation file not found at " ++ pathStr VAULT_CLAUDE_MD)⟩
  | some PyNode.dir =>
    .error ⟨wrapNavMsg ("[Errno 21] Is a directory: " ++ pathStr VAULT_CLAUDE_MD)⟩
  | some (PyNode.file c _ _) =>
    .ok { path := pathStr VAULT_CLAUDE_MD
          content := c
          loaded := true
          message := "Top-level navigation context loaded successfully" }

/-- `load_target_folder_context()`: a missing target-folder marker is a
non-fatal `loaded=false` result. -/
def load_target_folder_context (fs : FS) : Except ToolError NavResult :=
  match fsFind fs TARGET_CLAUDE_MD with
  | none =>
    .ok { path := pathStr TARGET_CLAUDE_MD
          content := ""
          loaded := false
          message := "No CLAUDE.md found in target folder: " ++ pathStr TARGET_FOLDER_PATH }
  | some PyNode.dir =>
    .error ⟨wrapTgtMsg ("[Errno 21] Is a directory: " ++ pathStr TARGET_CLAUDE_MD)⟩
  | some (PyNode.file c _ _) =>
    .ok { path := pathStr TARGET_CLAUDE_MD
          content := c
          loaded := true
          message := "Target folder navigation loaded successfully" }

/-- `discover_subdirectory_navigation(subdirectory)`: missing subdirectory is
fatal (its `exists()` check passes for any node at that path); a missing
marker inside an existing subdirectory is `loaded=false`. -/
def discover_subdirectory_navigation (fs : FS) (subdirectory : String) :
    Except ToolError NavResult :=
  match fsFind fs (pyJoin VAULT_PATH subdirectory) with
  | none =>
    .error ⟨wrapDiscMsg
      ("Subdirectory not found: " ++ pathStr (pyJoin VAULT_PATH subdirectory))⟩
  | some _ =>
    match fsFind fs (pyJoin VAULT_PATH subdirectory ++ ["CLAUDE.md"]) with
    | none =>
      .ok { path := pathStr (pyJoin VAULT_PATH subdirectory ++ ["CLAUDE.md"])
            content := ""
            loaded := false
            message := "No CLAUDE.md found in " ++ subdirectory }
    | some PyNode.dir =>
      .error ⟨wrapDiscMsg ("[Errno 21] Is a directory: " ++
        pathStr (pyJoin VAULT_PATH subdirectory ++ ["CLAUDE.md"]))⟩
    | some (PyNode.file c _ _) =>
      .ok { path := pathStr (pyJoin VAULT_PATH subdirectory ++ ["CLAUDE.md"])
            content := c
            loaded := true
            message := "Subdirectory navigation for " ++ subdirectory ++
              " loaded successfully" }

/-! ## The directory walker (`list_navigation_files`)

`os.walk(VAULT_PATH)` scans each directory top-down; with the default
`onerror=None` a failing `scandir` (missing or unreadable directory) is
silently ignored: that directory is not yielded and is not descended into.
`DirTree.node readable files subdirs` records whether `scandir` succeeds on
the directory (`readable`), the names of its regular files, and its named
subdirectories. `SubDirs` is an inlined list so that all functions are
structurally recursive (and hence compute by `rfl`/`decide`). -/

mutual
inductive DirTree : Type where
  | node : Bool → List String → SubDirs → DirTree
deriving DecidableEq, Repr

inductive SubDirs : Type where
  | nil : SubDirs
  | cons : String → DirTree → SubDirs → SubDirs
deriving DecidableEq, Repr
end

def DirTree.readable : DirTree → Bool
  | .node r _ _ => r

def DirTree.files : DirTree → List String
  | .node _ f _ => f

def SubDirs.toList : SubDirs → List (String × DirTree)
  | .nil => []
  | .cons n t rest => (n, t) :: rest.toList

def DirTree.children (t : DirTree) : List (String × DirTree) :=
  match t with
  | .node _ _ s => s.toList

/-- First subdirectory with the given name (directory entries of a real
filesystem have unique names; well-formedness below makes this exact). -/
def SubDirs.findName : SubDirs → String → Option DirTree
  | .nil, _ => none
  | .cons n t rest, m => if n = m then some t else rest.findName m

mutual
/-- `os.walk` from a directory reached at relative segments `pre`: yields
`(relative segments, file names)` for every successfully scanned directory,
top-down, silently skipping directories whose scan fails. -/
def walkFrom : DirTree → List String → List (List String × List String)
  | DirTree.node r fls subs, pre =>
    if r then (pre, fls) :: walkSubsFrom subs pre else []

def walkSubsFrom : SubDirs → List String → List (List String × List String)
  | SubDirs.nil, _ => []
  | SubDirs.cons n c rest, pre => walkFrom c (pre ++ [n]) ++ walkSubsFrom rest pre
end

/-- Descend by name from a directory, ignoring readability (the directory the
path denotes, whether or not a walk can reach it). -/
def dirAt : DirTree → List String → Option DirTree
  | t, [] => some t
  | DirTree.node _ _ subs, n :: rest =>
    match subs.findName n with
    | some c => dirAt c rest
    | none => none

/-- Descend by name, requiring every directory on the way (and the target) to
be scannable: exactly the directories `os.walk` yields. -/
def reachAt : DirTree → List String → Option DirTree
  | t, [] => if t.readable then some t else none
  | DirTree.node r _ subs, n :: rest =>
    if r then
      match subs.findName n with
      | some c => reachAt c rest
      | none => none
    else none

/-- `os.path.relpath(root, VAULT_PATH)` of a walked directory, with the
vault root (`"."`) replaced by the sentinel label. -/
def relEntry (segs : List String) : String :=
  match segs with
  | [] => "/ (root)"
  | s :: rest => rest.foldl (fun acc x => acc ++ "/" ++ x) s

/-- The `files_list` accumulated by `_walk_directory`: one entry per walked
directory whose scan listed a `CLAUDE.md` file. -/
def navEntries (t : DirTree) : List String :=
  ((walkFrom t []).filter fun q => decide ("CLAUDE.md" ∈ q.2)).map fun q => relEntry q.1

/-- `list_navigation_files()` from `tools/navigation.py`. `os.walk` raises
nothing with the default `onerror`, so the body never reaches the handler. -/
def list_navigation_files (t : DirTree) : Except ToolError NavListResult :=
  .ok { available_navigation := navEntries t
        total_count := (navEntries t).length
        vault_path := pathStr VAULT_PATH
        target_folder := pathStr TARGET_FOLDER_PATH }

/-! ## The clock reader (`tools/time.py`) -/

/-- The process's clock and timezone environment. `daylight` models the
module constant `time.daylight` (nonzero iff a DST rule is *defined* for the
local timezone); `isdstNow` records whether DST is actually in effect at the
instant of the call (`time.localtime().tm_isdst`), which the code never
consults. -/
structure TimeEnv where
  now : PyDateTime
  tznameStd : String
  tznameDst : String
  daylight : Bool
  isdstNow : Bool
deriving DecidableEq, Repr

/-- The dictionary returned by `get_current_time`. -/
structure TimeResult where
  time : String
  timezone : String
deriving DecidableEq, Repr

/-- `get_current_time()` from `tools/time.py`: note the timezone label is
`time.tzname[time.daylight]`, indexed by the constant `daylight` flag. -/
def get_current_time (env : TimeEnv) : Except ToolError TimeResult :=
  .ok { time := fmtTime env.now
        timezone := if env.daylight then env.tznameDst else env.tznameStd }

/-- The node's modification time (if it is a regular file) lies in
`strftime`'s supported ranges. -/
def PyNode.mtimeValid : PyNode → Prop
  | .file _ mt _ => mt.valid
  | .dir => True

instance : ∀ n : PyNode, Decidable n.mtimeValid
  | .file _ mt _ => inferInstanceAs (Decidable mt.valid)
  | .dir => inferInstanceAs (Decidable True)

/-! ## Concrete fixtures used by witnesses and counterexamples -/

def dtA : PyDateTime := ⟨2025, 9, 1, 10, 0, 0⟩

def dtB : PyDateTime := ⟨2025, 9, 2, 10, 0, 0⟩

/-- Target folder holding one extensionless file. -/
def fsReadme : FS :=
  [(TARGET_FOLDER_PATH, PyNode.dir),
   (TARGET_FOLDER_PATH ++ ["README"], PyNode.file "r" dtA 1)]

def eReadme : PyFileEntry := mkEntry "README" dtA 1

def resReadme : ListFilesResult :=
  { target_folder := TARGET_FOLDER
    folder_path := pathStr TARGET_FOLDER_PATH
    files := [eReadme]
    total_count := 1
    filter := "all files" }

/-- Target folder holding two markdown files and a subdirectory. -/
def fsTwo : FS :=
  [(TARGET_FOLDER_PATH, PyNode.dir),
   (TARGET_FOLDER_PATH ++ ["a.md"], PyNode.file "A" dtA 2),
   (TARGET_FOLDER_PATH ++ ["b.md"], PyNode.file "B" dtB 1),
   (TARGET_FOLDER_PATH ++ ["sub"], PyNode.dir)]

def resTwoAll : ListFilesResult :=
  { target_folder := TARGET_FOLDER
    folder_path := pathStr TARGET_FOLDER_PATH
    files := [mkEntry "b.md" dtB 1, mkEntry "a.md" dtA 2]
    total_count := 2
    filter := "all files" }

def resTwoMD : ListFilesResult :=
  { target_folder := TARGET_FOLDER
    folder_path := pathStr TARGET_FOLDER_PATH
    files := [mkEntry "b.md" dtB 1, mkEntry "a.md" dtA 2]
    total_count := 2
    filter := "MD" }

/-- C1, as stated in its second half: the unfiltered listing is contained in
the union over all extension filters of the filtered listings. -/
def c1UnionClaim : Prop :=
  ∀ (fs : FS) (res0 : ListFilesResult) (e : PyFileEntry),
    list_target_folder_files fs "" = .ok res0 → e ∈ res0.files →
    ∃ F resF, F ≠ "" ∧ list_target_folder_files fs F = .ok resF ∧ e ∈ resF.files

/-- An environment in a timezone that defines DST, at an instant at which DST
is not in effect (e.g. `America/New_York` on 2025-01-15 noon local). -/
def dstEnv : TimeEnv :=
  { now := ⟨2025, 1, 15, 12, 0, 0⟩
    tznameStd := "EST"
    tznameDst := "EDT"
    daylight := true
    isdstNow := false }

/-- Target folder containing only a subdirectory named `sub`. -/
def fsDirOnly : FS :=
  [(TARGET_FOLDER_PATH, PyNode.dir),
   (TARGET_FOLDER_PATH ++ ["sub"], PyNode.dir)]

/-- A filesystem whose only file lies outside the target folder (two levels
above it). -/
def fsSecret : FS :=
  [(["Users", "chaosisnotrandomitisrythmic", "Documents", "obsedian", "secret"],
    PyNode.file "top secret" dtA 10)]

/-- A filesystem agreeing with `fsSecret` at the escaped path but with an
extra unrelated entry. -/
def fsSecret2 : FS :=
  (VAULT_CLAUDE_MD, PyNode.file "nav" dtB 3) :: fsSecret

/-- The wrapped error `load_navigation_context` signals when the vault-root
marker file is absent. -/
def navNotFoundErr : ToolError :=
  ⟨wrapNavMsg ("Navigation file not found at " ++ pathStr VAULT_CLAUDE_MD)⟩

/-- Vault filesystem with the root marker present. -/
def fsVault : FS := [(VAULT_CLAUDE_MD, PyNode.file "nav" dtA 3)]

/-- Vault with an empty subdirectory `Yoga`. -/
def fsYoga : FS := [(VAULT_PATH ++ ["Yoga"], PyNode.dir)]

/-! ## Well-formedness of vault trees

Real directory trees have nonempty, slash-free entry names that are unique
among siblings; the walker lemmas assume this. -/

/-- A legal directory-entry name: nonempty and without a path separator. -/
def goodNameB (n : String) : Bool := decide (n.data ≠ [] ∧ '/' ∉ n.data)

/-- The subdirectory names, in order. -/
def subsNames : SubDirs → List String
  | .nil => []
  | .cons n _ rest => n :: subsNames rest

mutual
/-- Every directory of the tree has good, duplicate-free subdirectory
names. -/
def DirTree.wfB : DirTree → Bool
  | .node _ _ subs => decide (subsNames subs).Nodup && SubDirs.wfAll subs

def SubDirs.wfAll : SubDirs → Bool
  | .nil => true
  | .cons n c rest => goodNameB n && DirTree.wfB c && SubDirs.wfAll rest
end

mutual
/-- Every directory of the tree is scannable (no traversal I/O failures). -/
def DirTree.allReadB : DirTree → Bool
  | .node r _ subs => r && SubDirs.allReadAll subs

def SubDirs.allReadAll : SubDirs → Bool
  | .nil => true
  | .cons _ c rest => DirTree.allReadB c && SubDirs.allReadAll rest
end

/-- The characters `joinSegs` appends for the remaining segments: a slash
before each segment. -/
def charsOf (l : List String) : List Char := (l.map fun x => '/' :: x.data).flatten

/-- Vault tree whose root and one unreadable subdirectory both hold the
marker file. -/
def lockedTree : DirTree :=
  .node true ["CLAUDE.md"] (.cons "locked" (.node false ["CLAUDE.md"] .nil) .nil)

/-- Vault tree with a readable marker directory `a` and an unreadable marker
directory `hidden`. -/
def hiddenTree : DirTree :=
  .node true []
    (.cons "a" (.node true ["CLAUDE.md"] .nil)
      (.cons "hidden" (.node false ["CLAUDE.md"] .nil) .nil))

/-- Fully readable vault tree: marker at the root and in `Folder`. -/
def navTreeW : DirTree :=
  .node true ["CLAUDE.md"]
    (.cons "Folder" (.node true ["CLAUDE.md", "a.md"] .nil) .nil)

/-- A readable vault root with files but no marker anywhere. -/
def plainTree : DirTree := .node true ["notes.md"] .nil

/-! ## Order theory of the sort key (`"modified"` string, lexicographic) -/

theorem clexLt_cons_iff (a b : Char) (as bs : List Char) :
    clexLt (a :: as) (b :: bs) = true ↔ (a < b ∨ (a = b ∧ clexLt as bs = true)) := by
  simp only [clexLt]
  by_cases h1 : a < b
  · simp [h1]
  · by_cases h2 : a = b
    · simp [h1, h2]
    · simp [h1, h2]

theorem clexLt_cons_same (c : Char) (r s : List Char) :
    clexLt (c :: r) (c :: s) = clexLt r s := by
  simp [clexLt]

theorem clexLt_trans :
    ∀ (s t u : List Char), clexLt s t = true → clexLt t u = true → clexLt s u = true
  | [], [], _, h1, _ => by simp [clexLt] at h1
  | [], _ :: _, [], _, h2 => by simp [clexLt] at h2
  | [], _ :: _, _ :: _, _, _ => rfl
  | _ :: _, [], _, h1, _ => by simp [clexLt] at h1
  | _ :: _, _ :: _, [], _, h2 => by simp [clexLt] at h2
  | a :: as, b :: bs, c :: cs, h1, h2 => by
    rw [clexLt_cons_iff] at h1 h2 ⊢
    rcases h1 with h1 | ⟨rfl, h1⟩
    · rcases h2 with h2 | ⟨rfl, h2⟩
      · exact Or.inl (lt_trans h1 h2)
      · exact Or.inl h1
    · rcases h2 with h2 | ⟨rfl, h2⟩
      · exact Or.inl h2
      · exact Or.inr ⟨rfl, clexLt_trans as bs cs h1 h2⟩

theorem clexLt_asymm : ∀ (s t : List Char), clexLt s t = true → clexLt t s = false
  | [], [], h => by simp [clexLt] at h
  | [], _ :: _, _ => rfl
  | _ :: _, [], h => by simp [clexLt] at h
  | a :: as, b :: bs, h => by
    rw [clexLt_cons_iff] at h
    rw [← Bool.not_eq_true, clexLt_cons_iff]
    rcases h with h | ⟨rfl, h⟩
    · rintro (h' | ⟨rfl, h'⟩)
      · exact absurd h' (lt_asymm h)
      · exact lt_irrefl _ h
    · rintro (h' | ⟨-, h'⟩)
      · exact lt_irrefl _ h'
      · simp [clexLt_asymm as bs h] at h'

theorem clexLt_connex : ∀ (s t : List Char), clexLt s t = false → clexLt t s = false → s = t
  | [], [], _, _ => rfl
  | [], _ :: _, h1, _ => by simp [clexLt] at h1
  | _ :: _, [], _, h2 => by simp [clexLt] at h2
  | a :: as, b :: bs, h1, h2 => by
    rw [← Bool.not_eq_true, clexLt_cons_iff] at h1 h2
    push_neg at h1 h2
    have hab : a = b := by
      rcases lt_trichotomy a b with h | h | h
      · exact absurd h (not_lt.mpr h1.1)
      · exact h
      · exact absurd h (not_lt.mpr h2.1)
    subst hab
    have h1' : clexLt as bs = false := by
      rcases Bool.eq_false_or_eq_true (clexLt as bs) with h | h
      · exact absurd h (h1.2 rfl)
      · exact h
    have h2' : clexLt bs as = false := by
      rcases Bool.eq_false_or_eq_true (clexLt bs as) with h | h
      · exact absurd h (h2.2 rfl)
      · exact h
    rw [clexLt_connex as bs h1' h2']

theorem digitChar_lt_iff (a b : Nat) (ha : a < 10) (hb : b < 10) :
    Nat.digitChar a < Nat.digitChar b ↔ a < b := by
  interval_cases a <;> interval_cases b <;> decide

theorem digitChar_eq_iff (a b : Nat) (ha : a < 10) (hb : b < 10) :
    Nat.digitChar a = Nat.digitChar b ↔ a = b := by
  interval_cases a <;> interval_cases b <;> decide

theorem clexLt_pad2_append (a b : Nat) (ha : a < 100) (hb : b < 100) (r s : List Char) :
    clexLt (pad2 a ++ r) (pad2 b ++ s) = true ↔
      (a < b ∨ (a = b ∧ clexLt r s = true)) := by
  have h1 : a / 10 < 10 := by omega
  have h2 : b / 10 < 10 := by omega
  have h3 : a % 10 < 10 := by omega
  have h4 : b % 10 < 10 := by omega
  simp only [pad2, List.cons_append, List.nil_append]
  rw [clexLt_cons_iff, clexLt_cons_iff,
      digitChar_lt_iff _ _ h1 h2, digitChar_eq_iff _ _ h1 h2,
      digitChar_lt_iff _ _ h3 h4, digitChar_eq_iff _ _ h3 h4]
  constructor
  · rintro (h | ⟨h, h' | ⟨h'', hX⟩⟩)
    · left; omega
    · left; omega
    · right; exact ⟨by omega, hX⟩
  · rintro (h | ⟨rfl, hX⟩)
    · rcases (show a / 10 < b / 10 ∨ (a / 10 = b / 10 ∧ a % 10 < b % 10) by omega) with
        h' | ⟨h', h''⟩
      · exact Or.inl h'
      · exact Or.inr ⟨h', Or.inl h''⟩
    · exact Or.inr ⟨rfl, Or.inr ⟨rfl, hX⟩⟩

theorem clexLt_pad2 (a b : Nat) (ha : a < 100) (hb : b < 100) :
    clexLt (pad2 a) (pad2 b) = true ↔ a < b := by
  rw [← List.append_nil (pad2 a), ← List.append_nil (pad2 b),
      clexLt_pad2_append a b ha hb]
  simp [clexLt]

/-- Comparing two formatted `"%Y-%m-%d %H:%M:%S"` strings is comparing the
datetimes chronologically, for datetimes in `strftime`'s supported ranges. -/
theorem clexLt_fmt_iff (a b : PyDateTime) (ha : a.valid) (hb : b.valid) :
    clexLt (fmtChars a) (fmtChars b) = true ↔ dtLt a b := by
  obtain ⟨ha1, ha2, ha3, ha4, ha5, ha6, ha7, ha8, ha9⟩ := ha
  obtain ⟨hb1, hb2, hb3, hb4, hb5, hb6, hb7, hb8, hb9⟩ := hb
  unfold fmtChars
  rw [clexLt_pad2_append _ _ (by omega) (by omega),
      clexLt_pad2_append _ _ (by omega) (by omega),
      clexLt_cons_same,
      clexLt_pad2_append _ _ (by omega) (by omega),
      clexLt_cons_same,
      clexLt_pad2_append _ _ (by omega) (by omega),
      clexLt_cons_same,
      clexLt_pad2_append _ _ (by omega) (by omega),
      clexLt_cons_same,
      clexLt_pad2_append _ _ (by omega) (by omega),
      clexLt_cons_same,
      clexLt_pad2 _ _ (by omega) (by omega)]
  unfold dtLt
  omega

instance : IsTotal PyFileEntry entGe :=
  ⟨fun a b => by
    unfold entGe
    rcases Bool.eq_false_or_eq_true (clexLt (fmtChars a.modified) (fmtChars b.modified)) with
      h | h
    · exact Or.inr (clexLt_asymm _ _ h)
    · exact Or.inl h⟩

instance : IsTrans PyFileEntry entGe :=
  ⟨fun a b c hab hbc => by
    unfold entGe at *
    by_contra h
    rw [Bool.not_eq_false] at h
    rcases Bool.eq_false_or_eq_true
        (clexLt (fmtChars c.modified) (fmtChars b.modified)) with hcb | hcb
    · have := clexLt_trans _ _ _ h hcb
      simp [this] at hab
    · have hbc' : fmtChars b.modified = fmtChars c.modified := clexLt_connex _ _ hbc hcb
      rw [← hbc'] at h
      simp [h] at hab⟩

/-! ## Support lemmas for the folder lister -/

theorem folderEntries_nil (ext : String) : folderEntries [] ext = [] := rfl

theorem folderEntries_cons_file (n c : String) (mt : PyDateTime) (sz : Nat)
    (rest : List (String × PyNode)) (ext : String) :
    folderEntries ((n, PyNode.file c mt sz) :: rest) ext =
      if matchesFilter ext n then mkEntry n mt sz :: folderEntries rest ext
      else folderEntries rest ext := by
  unfold folderEntries
  rw [List.filterMap_cons]
  by_cases h : matchesFilter ext n <;> simp [h]

theorem folderEntries_cons_dir (n : String) (rest : List (String × PyNode))
    (ext : String) :
    folderEntries ((n, PyNode.dir) :: rest) ext = folderEntries rest ext := by
  unfold folderEntries
  rw [List.filterMap_cons]

theorem matchesFilter_all (n : String) : matchesFilter "" n = true := rfl

theorem folderEntries_length_all :
    ∀ l : List (String × PyNode),
      (folderEntries l "").length = l.countP fun nc => nc.2.isFile
  | [] => rfl
  | (n, PyNode.file c mt sz) :: rest => by
    rw [folderEntries_cons_file, matchesFilter_all, if_pos rfl]
    simp [List.countP_cons, PyNode.isFile, folderEntries_length_all rest]
  | (n, PyNode.dir) :: rest => by
    rw [folderEntries_cons_dir]
    simp [List.countP_cons, PyNode.isFile, folderEntries_length_all rest]

theorem folderEntries_mem :
    ∀ (l : List (String × PyNode)) (ext : String) (e : PyFileEntry),
      e ∈ folderEntries l ext ↔
        ∃ n c mt sz, (n, PyNode.file c mt sz) ∈ l ∧ matchesFilter ext n = true ∧
          e = mkEntry n mt sz
  | [], ext, e => by simp [folderEntries_nil]
  | (n, PyNode.file c mt sz) :: rest, ext, e => by
    rw [folderEntries_cons_file]
    by_cases hm : matchesFilter ext n = true
    · rw [if_pos hm]
      rw [List.mem_cons, folderEntries_mem rest ext e]
      constructor
      · rintro (rfl | ⟨n', c', mt', sz', hmem, hm', rfl⟩)
        · exact ⟨n, c, mt, sz, List.mem_cons_self _ _, hm, rfl⟩
        · exact ⟨n', c', mt', sz', List.mem_cons_of_mem _ hmem, hm', rfl⟩
      · rintro ⟨n', c', mt', sz', hmem, hm', rfl⟩
        rcases List.mem_cons.mp hmem with heq | hmem'
        · simp only [Prod.mk.injEq, PyNode.file.injEq] at heq
          obtain ⟨rfl, rfl, rfl, rfl⟩ := heq
          exact Or.inl rfl
        · exact Or.inr ⟨n', c', mt', sz', hmem', hm', rfl⟩
    · rw [if_neg hm]
      rw [folderEntries_mem rest ext e]
      constructor
      · rintro ⟨n', c', mt', sz', hmem, hm', rfl⟩
        exact ⟨n', c', mt', sz', List.mem_cons_of_mem _ hmem, hm', rfl⟩
      · rintro ⟨n', c', mt', sz', hmem, hm', rfl⟩
        rcases List.mem_cons.mp hmem with heq | hmem'
        · simp only [Prod.mk.injEq, PyNode.file.injEq] at heq
          obtain ⟨rfl, rfl, rfl, rfl⟩ := heq
          exact absurd hm' hm
        · exact ⟨n', c', mt', sz', hmem', hm', rfl⟩
  | (n, PyNode.dir) :: rest, ext, e => by
    rw [folderEntries_cons_dir, folderEntries_mem rest ext e]
    constructor
    · rintro ⟨n', c', mt', sz', hmem, hm', rfl⟩
      exact ⟨n', c', mt', sz', List.mem_cons_of_mem _ hmem, hm', rfl⟩
    · rintro ⟨n', c', mt', sz', hmem, hm', rfl⟩
      rcases List.mem_cons.mp hmem with heq | hmem'
      · exact absurd (congrArg Prod.snd heq) (by simp)
      · exact ⟨n', c', mt', sz', hmem', hm', rfl⟩

/-- A successful listing's `files` come from sorting the filtered direct
children, and `total_count` is their number. -/
theorem list_files_ok (fs : FS) (ext : String) (res : ListFilesResult)
    (h : list_target_folder_files fs ext = .ok res) :
    res.files = pySortRev (folderEntries (childrenOf fs TARGET_FOLDER_PATH) ext) ∧
      res.total_count = res.files.length ∧
      fsFind fs TARGET_FOLDER_PATH = some PyNode.dir := by
  unfold list_target_folder_files at h
  match hf : fsFind fs TARGET_FOLDER_PATH with
  | none => rw [hf] at h; exact absurd h (by simp)
  | some (PyNode.file c mt sz) => rw [hf] at h; exact absurd h (by simp)
  | some PyNode.dir =>
    rw [hf] at h
    simp only [Except.ok.injEq] at h
    subst h
    exact ⟨rfl, rfl, rfl⟩

/-- Membership in a successful listing. -/
theorem list_files_mem (fs : FS) (ext : String) (res : ListFilesResult)
    (h : list_target_folder_files fs ext = .ok res) (e : PyFileEntry) :
    e ∈ res.files ↔
      ∃ n c mt sz, (n, PyNode.file c mt sz) ∈ childrenOf fs TARGET_FOLDER_PATH ∧
        matchesFilter ext n = true ∧ e = mkEntry n mt sz := by
  rw [(list_files_ok fs ext res h).1, pySortRev, List.mem_insertionSort]
  exact folderEntries_mem _ _ _

/-- Chronological totality: if `a` is not strictly before `b` then `b ≤ a`. -/
theorem dtLe_of_not_dtLt {a b : PyDateTime} (h : ¬ dtLt a b) : dtLe b a := by
  rcases (show dtLt b a ∨ (b.year = a.year ∧ b.month = a.month ∧ b.day = a.day ∧
      b.hour = a.hour ∧ b.minute = a.minute ∧ b.second = a.second) by
    unfold dtLt at *; omega) with h' | ⟨e1, e2, e3, e4, e5, e6⟩
  · exact Or.inl h'
  · right
    cases a; cases b
    simp_all

/-- The sort by the stored `"modified"` string orders the entries descending
chronologically, provided the datetimes lie in `strftime`'s ranges. -/
theorem pySortRev_sorted_dt (l : List PyFileEntry)
    (hv : ∀ e ∈ l, e.modified.valid) :
    (pySortRev l).Pairwise fun a b => dtLe b.modified a.modified := by
  have hs : List.Sorted entGe (pySortRev l) := List.sorted_insertionSort entGe l
  have hmem : ∀ e ∈ pySortRev l, e.modified.valid := by
    intro e he
    exact hv e ((List.mem_insertionSort entGe).mp he)
  refine List.Pairwise.imp_of_mem (fun {a b} ha hb hge => ?_) hs
  have hnlt : ¬ dtLt a.modified b.modified := by
    intro hlt
    rw [← clexLt_fmt_iff _ _ (hmem a ha) (hmem b hb)] at hlt
    unfold entGe at hge
    simp [hlt] at hge
  exact dtLe_of_not_dtLt hnlt

/-! ## String and suffix lemmas -/

theorem strMk_append (a b : List Char) : String.mk a ++ String.mk b = String.mk (a ++ b) :=
  rfl

theorem strMk_inj {a b : List Char} (h : String.mk a = String.mk b) : a = b := by
  injection h

/-- `sufGo` yields either the empty suffix or a dot followed by at least one
character. -/
theorem sufGo_shape :
    ∀ (acc rev : List Char), sufGo acc rev = [] ∨ ∃ a as, sufGo acc rev = '.' :: a :: as
  | _, [] => Or.inl rfl
  | acc, c :: rest => by
    by_cases hc : c = '.'
    · by_cases h : acc ≠ [] ∧ rest ≠ []
      · right
        rcases acc with _ | ⟨a, as⟩
        · exact absurd rfl h.1
        · exact ⟨a, as, by simp [sufGo, hc, h]⟩
      · left
        simp [sufGo, hc, h]
    · have : sufGo acc (c :: rest) = sufGo (c :: acc) rest := by simp [sufGo, hc]
      rw [this]
      exact sufGo_shape (c :: acc) rest

/-- `PurePath.suffix` is empty or a dot followed by at least one character. -/
theorem pySuffix_shape (s : String) :
    pySuffix s = "" ∨ ∃ a as, pySuffix s = String.mk ('.' :: a :: as) := by
  unfold pySuffix
  rcases sufGo_shape [] s.data.reverse with h | ⟨a, as, h⟩
  · exact Or.inl (by rw [h])
  · exact Or.inr ⟨a, as, by rw [h]⟩

theorem pyLower_mk (cs : List Char) :
    pyLower (String.mk cs) = String.mk (cs.map Char.toLower) := rfl

theorem toLower_dot : Char.toLower '.' = '.' := rfl

/-- Lowercasing commutes with prepending the dot. -/
theorem pyLower_dot_append (F : String) :
    pyLower ("." ++ F) = "." ++ pyLower F := rfl

/-- For a nonempty filter, `matchesFilter` is exactly the case-insensitive
suffix comparison of the code. -/
theorem matchesFilter_ne_iff (ext name : String) (h : ext ≠ "") :
    matchesFilter ext name = true ↔ pyLower (pySuffix name) = "." ++ pyLower ext := by
  unfold matchesFilter
  rw [if_neg h]
  by_cases hc : pyLower (pySuffix name) = "." ++ pyLower ext
  · simp [hc]
  · simp [hc]

/-- When the target folder is a directory, every call succeeds with the
sorted, filtered children. -/
theorem list_files_of_dir (fs : FS) (F : String)
    (h : fsFind fs TARGET_FOLDER_PATH = some PyNode.dir) :
    list_target_folder_files fs F =
      .ok { target_folder := TARGET_FOLDER
            folder_path := pathStr TARGET_FOLDER_PATH
            files := pySortRev (folderEntries (childrenOf fs TARGET_FOLDER_PATH) F)
            total_count :=
              (pySortRev (folderEntries (childrenOf fs TARGET_FOLDER_PATH) F)).length
            filter := if F = "" then "all files" else F } := by
  unfold list_target_folder_files
  rw [h]

instance {ε α : Type} [DecidableEq ε] [DecidableEq α] : DecidableEq (Except ε α) :=
  fun a b =>
    match a, b with
    | .ok x, .ok y => decidable_of_iff (x = y) (by simp)
    | .error x, .error y => decidable_of_iff (x = y) (by simp)
    | .ok _, .error _ => isFalse (by simp)
    | .error _, .ok _ => isFalse (by simp)





/-! ## Claim C1 -/



/-- C1 counterexample: an extensionless file (pathlib suffix `""`, e.g.
`README`) is returned by the unfiltered call but by no filtered call, since
every filter compares against a string starting with a dot. -/
theorem c1_union_cex : ¬ c1UnionClaim := by
  intro h
  obtain ⟨F, resF, hF, hok, hmem⟩ :=
    h fsReadme resReadme eReadme (by decide) (by decide)
  obtain ⟨n, c, mt, sz, hch, hm, he⟩ := (list_files_mem fsReadme F resF hok eReadme).mp hmem
  have hn : n = "README" := (congrArg PyFileEntry.name he).symm
  subst hn
  have hsfx := (matchesFilter_ne_iff F "README" hF).mp hm
  have hd : (pyLower (pySuffix "README")).data = ("." ++ pyLower F).data :=
    congrArg String.data hsfx
  have h0 : (pyLower (pySuffix "README")).data = [] := by decide
  rw [h0] at hd
  exact absurd hd (by simp [pyLower])

/-- C1 (amended): for every nonempty extension filter F, every returned entry
has an extension case-insensitively equal to "." + F; the unfiltered listing
is the union of the filtered listings *together with* the entries whose
pathlib extension is empty (extensionless names, which no filter matches),
and every filtered entry occurs in the unfiltered listing. -/
theorem c1_amended :
    (∀ (fs : FS) (F : String) (res : ListFilesResult) (e : PyFileEntry), F ≠ "" →
      list_target_folder_files fs F = .ok res → e ∈ res.files →
      pyLower e.extension = pyLower ("." ++ F)) ∧
    (∀ (fs : FS) (res0 : ListFilesResult) (e : PyFileEntry),
      list_target_folder_files fs "" = .ok res0 → e ∈ res0.files →
      e.extension = "" ∨
        ∃ F resF, F ≠ "" ∧ list_target_folder_files fs F = .ok resF ∧ e ∈ resF.files) ∧
    (∀ (fs : FS) (F : String) (res0 resF : ListFilesResult) (e : PyFileEntry),
      list_target_folder_files fs "" = .ok res0 →
      list_target_folder_files fs F = .ok resF → e ∈ resF.files → e ∈ res0.files) := by
  refine ⟨?_, ?_, ?_⟩
  · intro fs F res e hF hok hmem
    obtain ⟨n, c, mt, sz, hch, hm, rfl⟩ := (list_files_mem fs F res hok e).mp hmem
    have hsfx := (matchesFilter_ne_iff F n hF).mp hm
    rw [pyLower_dot_append]
    exact hsfx
  · intro fs res0 e hok hmem
    obtain ⟨n, c, mt, sz, hch, hm, rfl⟩ := (list_files_mem fs "" res0 hok e).mp hmem
    rcases pySuffix_shape n with hempty | ⟨a, as, hsuf⟩
    · exact Or.inl hempty
    · right
      have hdir := (list_files_ok fs "" res0 hok).2.2
      refine ⟨String.mk (a :: as), _, ?_, list_files_of_dir fs (String.mk (a :: as)) hdir, ?_⟩
      · intro hcon
        exact absurd (strMk_inj hcon) (by simp)
      · rw [pySortRev, List.mem_insertionSort, folderEntries_mem]
        refine ⟨n, c, mt, sz, hch, ?_, rfl⟩
        rw [matchesFilter_ne_iff _ _ (by intro hcon; exact absurd (strMk_inj hcon) (by simp))]
        rw [hsuf]
        rfl
  · intro fs F res0 resF e hok0 hokF hmem
    obtain ⟨n, c, mt, sz, hch, hm, rfl⟩ := (list_files_mem fs F resF hokF e).mp hmem
    exact (list_files_mem fs "" res0 hok0 _).mpr
      ⟨n, c, mt, sz, hch, matchesFilter_all n, rfl⟩

/-- C1 witness: the filtered call with filter "MD" on a concrete folder
returns entries whose extension is case-insensitively ".MD". -/
theorem c1_witness :
    pyLower (mkEntry "b.md" dtB 1).extension = pyLower ("." ++ "MD") :=
  c1_amended.1 fsTwo "MD" resTwoMD (mkEntry "b.md" dtB 1) (by decide) (by decide)
    (by decide)

/-! ## Claim C2 -/

/-- C2: the unfiltered listing has one entry per regular file directly inside
the target folder (subdirectories excluded), and is sorted descending by
modification time (most recently modified first), for modification times in
`strftime`'s supported ranges. -/
theorem c2_count_sorted :
    ∀ (fs : FS) (res : ListFilesResult),
      list_target_folder_files fs "" = .ok res →
      (∀ nc ∈ childrenOf fs TARGET_FOLDER_PATH, nc.2.mtimeValid) →
      res.files.length = ((childrenOf fs TARGET_FOLDER_PATH).countP fun nc => nc.2.isFile) ∧
        res.files.Pairwise fun a b => dtLe b.modified a.modified := by
  intro fs res hok hv
  obtain ⟨hfiles, -, -⟩ := list_files_ok fs "" res hok
  constructor
  · rw [hfiles, pySortRev, (List.perm_insertionSort entGe _).length_eq]
    exact folderEntries_length_all _
  · rw [hfiles]
    apply pySortRev_sorted_dt
    intro e he
    obtain ⟨n, c, mt, sz, hch, hm, rfl⟩ := (folderEntries_mem _ _ _).mp he
    exact hv (n, PyNode.file c mt sz) hch

/-- C2 witness: on a concrete folder with two files and a subdirectory, the
listing length matches the regular-file count and is sorted most recent
first. -/
theorem c2_witness :
    resTwoAll.files.length =
        ((childrenOf fsTwo TARGET_FOLDER_PATH).countP fun nc => nc.2.isFile) ∧
      resTwoAll.files.Pairwise fun a b => dtLe b.modified a.modified :=
  c2_count_sorted fsTwo resTwoAll (by decide) (by decide)

/-! ## Claim C4 -/



/-- C4 (code bug): `get_current_time` indexes `time.tzname` by the constant
`time.daylight` (whether a DST rule exists), not by whether DST is in effect
at the instant of the call, so in winter it reports the DST name. -/
theorem c4_tzname_daylight :
    get_current_time dstEnv = .ok ⟨"2025-01-15 12:00:00", "EDT"⟩ ∧
      dstEnv.isdstNow = false ∧
      (if dstEnv.isdstNow then dstEnv.tznameDst else dstEnv.tznameStd) = "EST" ∧
      ("EDT" : String) ≠ "EST" := by
  decide

/-! ## Claim C5 -/



/-- C5 counterexample: when the resolved path exists but is a directory (so
is not a regular file), the operation does not signal the not-found error
naming the filename and the target folder; it fails inside `read_text` and
the wrapped message is a different one. -/
theorem c5_dir_cex :
    fsFind fsDirOnly (pyJoin TARGET_FOLDER_PATH "sub") = some PyNode.dir ∧
      load_target_folder_file fsDirOnly "sub" =
        .error ⟨wrapLoadMsg "sub"
          ("[Errno 21] Is a directory: " ++ pathStr (pyJoin TARGET_FOLDER_PATH "sub"))⟩ ∧
      wrapLoadMsg "sub"
          ("[Errno 21] Is a directory: " ++ pathStr (pyJoin TARGET_FOLDER_PATH "sub")) ≠
        loadNotFoundMsg "sub" := by
  decide

/-- C5 (amended): the not-found error naming both the filename and the target
folder is signalled exactly when nothing exists at the resolved path; a
directory at the path yields the wrapped `IsADirectoryError` read failure
instead; a regular file is returned in full with `loaded := true`. -/
theorem c5_amended :
    ∀ (fs : FS) (fn : String),
      (fsFind fs (pyJoin TARGET_FOLDER_PATH fn) = none →
        load_target_folder_file fs fn = .error ⟨loadNotFoundMsg fn⟩) ∧
      (∀ c mt sz, fsFind fs (pyJoin TARGET_FOLDER_PATH fn) = some (PyNode.file c mt sz) →
        load_target_folder_file fs fn =
          .ok { filename := fn
                path := pathStr (pyJoin TARGET_FOLDER_PATH fn)
                content := c
                size := sz
                modified := mt
                target_folder := TARGET_FOLDER
                loaded := true }) ∧
      (fsFind fs (pyJoin TARGET_FOLDER_PATH fn) = some PyNode.dir →
        load_target_folder_file fs fn =
          .error ⟨wrapLoadMsg fn
            ("[Errno 21] Is a directory: " ++ pathStr (pyJoin TARGET_FOLDER_PATH fn))⟩) := by
  intro fs fn
  refine ⟨?_, ?_, ?_⟩
  · intro h
    unfold load_target_folder_file
    rw [h]
  · intro c mt sz h
    unfold load_target_folder_file
    rw [h]
  · intro h
    unfold load_target_folder_file
    rw [h]

/-- C5 witness: loading an existing regular file returns its content with
`loaded := true`. -/
theorem c5_witness :
    load_target_folder_file fsTwo "a.md" =
      .ok { filename := "a.md"
            path := pathStr (pyJoin TARGET_FOLDER_PATH "a.md")
            content := "A"
            size := 2
            modified := dtA
            target_folder := TARGET_FOLDER
            loaded := true } :=
  (c5_amended fsTwo "a.md").2.1 "A" dtA 2 (by decide)

/-! ## Claim C6 -/



/-- C6: the loader consults exactly the caller-supplied filename joined onto
the target-folder path (its behaviour depends only on the filesystem at that
joined path, with no rejection of traversal segments), and for the filename
`"../../secret"` the resolved path lies outside the target folder and the
file there — outside the vault's target folder — is read and returned. -/
theorem c6_no_sanitization :
    (∀ (fs1 fs2 : FS) (fn : String),
      fsFind fs1 (pyJoin TARGET_FOLDER_PATH fn) = fsFind fs2 (pyJoin TARGET_FOLDER_PATH fn) →
      load_target_folder_file fs1 fn = load_target_folder_file fs2 fn) ∧
      normSegs (pyJoin TARGET_FOLDER_PATH "../../secret") =
        ["Users", "chaosisnotrandomitisrythmic", "Documents", "obsedian", "secret"] ∧
      (¬ ∃ s, normSegs (pyJoin TARGET_FOLDER_PATH "../../secret") =
        TARGET_FOLDER_PATH ++ s) ∧
      load_target_folder_file fsSecret "../../secret" =
        .ok { filename := "../../secret"
              path := pathStr (pyJoin TARGET_FOLDER_PATH "../../secret")
              content := "top secret"
              size := 10
              modified := dtA
              target_folder := TARGET_FOLDER
              loaded := true } := by
  refine ⟨?_, by decide, ?_, by decide⟩
  · intro fs1 fs2 fn h
    unfold load_target_folder_file
    rw [h]
  · rintro ⟨s, hs⟩
    have hlen := congrArg List.length hs
    rw [List.length_append] at hlen
    have h5 : (normSegs (pyJoin TARGET_FOLDER_PATH "../../secret")).length = 5 := by decide
    have h6 : TARGET_FOLDER_PATH.length = 6 := by decide
    omega

/-- C6 witness: the loader's result is unchanged by filesystem entries away
from the joined path. -/
theorem c6_witness :
    load_target_folder_file fsSecret "../../secret" =
      load_target_folder_file fsSecret2 "../../secret" :=
  c6_no_sanitization.1 fsSecret fsSecret2 "../../secret" (by decide)

/-! ## Claim C8 -/



/-- C8: `load_navigation_context` signals the not-found error exactly when
the vault-root marker file is absent, and every successful result carries
`loaded := true` together with the marker file's full text. -/
theorem c8_vault_nav :
    ∀ fs : FS,
      ((load_navigation_context fs = .error navNotFoundErr) ↔
        fsFind fs VAULT_CLAUDE_MD = none) ∧
      (∀ r, load_navigation_context fs = .ok r →
        r.loaded = true ∧
          ∃ mt sz, fsFind fs VAULT_CLAUDE_MD = some (PyNode.file r.content mt sz)) := by
  intro fs
  unfold load_navigation_context
  match hf : fsFind fs VAULT_CLAUDE_MD with
  | none =>
    refine ⟨by simp [navNotFoundErr], ?_⟩
    intro r hr
    exact absurd hr (by simp)
  | some (PyNode.file c mt sz) =>
    refine ⟨⟨fun h => absurd h (by simp), fun h => absurd h (by simp)⟩, ?_⟩
    intro r hr
    simp only [Except.ok.injEq] at hr
    subst hr
    exact ⟨rfl, mt, sz, rfl⟩
  | some PyNode.dir =>
    refine ⟨⟨fun h => ?_, fun h => absurd h (by simp)⟩, ?_⟩
    · simp only [Except.error.injEq] at h
      exact absurd h (by decide)
    · intro r hr
      exact absurd hr (by simp)



/-- C8 witness: with the vault marker present, the loader returns its text
with `loaded := true` and never the not-found error. -/
theorem c8_witness :
    NavResult.loaded
        { path := pathStr VAULT_CLAUDE_MD
          content := "nav"
          loaded := true
          message := "Top-level navigation context loaded successfully" } = true ∧
      ∃ mt sz, fsFind fsVault VAULT_CLAUDE_MD =
        some (PyNode.file (NavResult.content
          { path := pathStr VAULT_CLAUDE_MD
            content := "nav"
            loaded := true
            message := "Top-level navigation context loaded successfully" }) mt sz) :=
  (c8_vault_nav fsVault).2 _ (by decide)

/-! ## Claim C9 -/

/-- C9: a missing subdirectory is a wrapped not-found error; an existing
subdirectory without a marker file yields a non-error `loaded := false`
result; a marker file present yields `loaded := true` with its content. -/
theorem c9_discover :
    ∀ (fs : FS) (sub : String),
      (fsFind fs (pyJoin VAULT_PATH sub) = none →
        discover_subdirectory_navigation fs sub =
          .error ⟨wrapDiscMsg
            ("Subdirectory not found: " ++ pathStr (pyJoin VAULT_PATH sub))⟩) ∧
      (∀ nd, fsFind fs (pyJoin VAULT_PATH sub) = some nd →
        fsFind fs (pyJoin VAULT_PATH sub ++ ["CLAUDE.md"]) = none →
        discover_subdirectory_navigation fs sub =
          .ok { path := pathStr (pyJoin VAULT_PATH sub ++ ["CLAUDE.md"])
                content := ""
                loaded := false
                message := "No CLAUDE.md found in " ++ sub }) ∧
      (∀ nd c mt sz, fsFind fs (pyJoin VAULT_PATH sub) = some nd →
        fsFind fs (pyJoin VAULT_PATH sub ++ ["CLAUDE.md"]) = some (PyNode.file c mt sz) →
        discover_subdirectory_navigation fs sub =
          .ok { path := pathStr (pyJoin VAULT_PATH sub ++ ["CLAUDE.md"])
                content := c
                loaded := true
                message := "Subdirectory navigation for " ++ sub ++
                  " loaded successfully" }) := by
  intro fs sub
  refine ⟨?_, ?_, ?_⟩
  · intro h
    unfold discover_subdirectory_navigation
    rw [h]
  · intro nd h1 h2
    unfold discover_subdirectory_navigation
    rw [h1, h2]
  · intro nd c mt sz h1 h2
    unfold discover_subdirectory_navigation
    rw [h1, h2]



/-! ## Walker support lemmas -/

theorem wfB_unfold (r : Bool) (fls : List String) (subs : SubDirs) :
    DirTree.wfB (.node r fls subs) = true ↔
      (subsNames subs).Nodup ∧ SubDirs.wfAll subs = true := by
  simp [DirTree.wfB, Bool.and_eq_true]

theorem allReadB_unfold (r : Bool) (fls : List String) (subs : SubDirs) :
    DirTree.allReadB (.node r fls subs) = true ↔
      r = true ∧ SubDirs.allReadAll subs = true := by
  simp [DirTree.allReadB, Bool.and_eq_true]

theorem mem_toList_name :
    ∀ (subs : SubDirs) (n : String) (c : DirTree),
      (n, c) ∈ subs.toList → n ∈ subsNames subs
  | .nil, n, c, h => by simp [SubDirs.toList] at h
  | .cons n' t rest, n, c, h => by
    rcases (by simpa [SubDirs.toList] using h :
        (n = n' ∧ c = t) ∨ (n, c) ∈ rest.toList) with ⟨rfl, rfl⟩ | hmem
    · simp [subsNames]
    · simp [subsNames]
      exact Or.inr (mem_toList_name rest n c hmem)

theorem findName_mem :
    ∀ (subs : SubDirs) (n : String) (c : DirTree),
      subs.findName n = some c → (n, c) ∈ subs.toList
  | .nil, n, c, h => by simp [SubDirs.findName] at h
  | .cons n' t rest, n, c, h => by
    unfold SubDirs.findName at h
    by_cases he : n' = n
    · rw [if_pos he] at h
      simp only [Option.some.injEq] at h
      subst h
      subst he
      simp [SubDirs.toList]
    · rw [if_neg he] at h
      have := findName_mem rest n c h
      simp [SubDirs.toList, this]

theorem mem_findName :
    ∀ (subs : SubDirs) (n : String) (c : DirTree),
      (subsNames subs).Nodup → (n, c) ∈ subs.toList → subs.findName n = some c
  | .nil, n, c, _, h => by simp [SubDirs.toList] at h
  | .cons n' t rest, n, c, hnd, h => by
    unfold SubDirs.findName
    rcases (by simpa [SubDirs.toList] using h :
        (n = n' ∧ c = t) ∨ (n, c) ∈ rest.toList) with ⟨rfl, rfl⟩ | hmem
    · rw [if_pos rfl]
    · have hndr : (subsNames rest).Nodup :=
        (List.nodup_cons.mp (by simpa [subsNames] using hnd)).2
      by_cases he : n' = n
      · subst he
        have : n' ∈ subsNames rest := mem_toList_name rest n' c hmem
        exact absurd this (List.nodup_cons.mp (by simpa [subsNames] using hnd)).1
      · rw [if_neg he]
        exact mem_findName rest n c hndr hmem

theorem wfAll_mem :
    ∀ (subs : SubDirs) (n : String) (c : DirTree),
      SubDirs.wfAll subs = true → (n, c) ∈ subs.toList →
      goodNameB n = true ∧ DirTree.wfB c = true
  | .nil, n, c, _, h => by simp [SubDirs.toList] at h
  | .cons n' t rest, n, c, hwf, h => by
    rw [show SubDirs.wfAll (.cons n' t rest) =
      (goodNameB n' && DirTree.wfB t && SubDirs.wfAll rest) from rfl,
      Bool.and_eq_true, Bool.and_eq_true] at hwf
    rcases (by simpa [SubDirs.toList] using h :
        (n = n' ∧ c = t) ∨ (n, c) ∈ rest.toList) with ⟨rfl, rfl⟩ | hmem
    · exact ⟨hwf.1.1, hwf.1.2⟩
    · exact wfAll_mem rest n c hwf.2 hmem

theorem allReadAll_mem :
    ∀ (subs : SubDirs) (n : String) (c : DirTree),
      SubDirs.allReadAll subs = true → (n, c) ∈ subs.toList →
      DirTree.allReadB c = true
  | .nil, n, c, _, h => by simp [SubDirs.toList] at h
  | .cons n' t rest, n, c, har, h => by
    rw [show SubDirs.allReadAll (.cons n' t rest) =
      (DirTree.allReadB t && SubDirs.allReadAll rest) from rfl, Bool.and_eq_true] at har
    rcases (by simpa [SubDirs.toList] using h :
        (n = n' ∧ c = t) ∨ (n, c) ∈ rest.toList) with ⟨rfl, rfl⟩ | hmem
    · exact har.1
    · exact allReadAll_mem rest n c har.2 hmem

theorem reachAt_dirAt :
    ∀ (s : List String) (t d : DirTree),
      reachAt t s = some d → dirAt t s = some d ∧ d.readable = true
  | [], .node r fls subs, d, h => by
    rw [show reachAt (.node r fls subs) [] =
      if r = true then some (DirTree.node r fls subs) else none from rfl] at h
    by_cases hr : r = true
    · rw [if_pos hr] at h
      simp only [Option.some.injEq] at h
      subst h
      exact ⟨rfl, hr⟩
    · rw [if_neg hr] at h
      exact absurd h (by simp)
  | n :: rest, .node r fls subs, d, h => by
    unfold reachAt at h
    by_cases hr : r = true
    · rw [if_pos hr] at h
      cases hfn : SubDirs.findName subs n with
      | none => rw [hfn] at h; exact absurd h (by simp)
      | some c =>
        rw [hfn] at h
        have ih := reachAt_dirAt rest c d h
        refine ⟨?_, ih.2⟩
        unfold dirAt
        rw [hfn]
        exact ih.1
    · rw [if_neg hr] at h
      exact absurd h (by simp)

theorem allReadB_reach :
    ∀ (s : List String) (t d : DirTree),
      DirTree.allReadB t = true → dirAt t s = some d → reachAt t s = some d
  | [], .node r fls subs, d, har, h => by
    have hr := ((allReadB_unfold r fls subs).mp har).1
    unfold dirAt at h
    simp only [Option.some.injEq] at h
    subst h
    unfold reachAt
    rw [if_pos (show DirTree.readable (.node r fls subs) = true from hr)]
  | n :: rest, .node r fls subs, d, har, h => by
    obtain ⟨hr, hall⟩ := (allReadB_unfold r fls subs).mp har
    unfold dirAt at h
    cases hfn : SubDirs.findName subs n with
    | none => rw [hfn] at h; exact absurd h (by simp)
    | some c =>
      rw [hfn] at h
      have hc := allReadAll_mem subs n c hall (findName_mem subs n c hfn)
      unfold reachAt
      rw [if_pos hr, hfn]
      exact allReadB_reach rest c d hc h

theorem dirAt_names_good :
    ∀ (s : List String) (t d : DirTree),
      DirTree.wfB t = true → dirAt t s = some d →
      (∀ n ∈ s, goodNameB n = true) ∧ DirTree.wfB d = true
  | [], t, d, hwf, h => by
    unfold dirAt at h
    simp only [Option.some.injEq] at h
    subst h
    exact ⟨by simp, hwf⟩
  | n :: rest, .node r fls subs, d, hwf, h => by
    obtain ⟨hnd, hall⟩ := (wfB_unfold r fls subs).mp hwf
    unfold dirAt at h
    cases hfn : SubDirs.findName subs n with
    | none => rw [hfn] at h; exact absurd h (by simp)
    | some c =>
      rw [hfn] at h
      obtain ⟨hg, hcwf⟩ := wfAll_mem subs n c hall (findName_mem subs n c hfn)
      obtain ⟨ihn, ihwf⟩ := dirAt_names_good rest c d hcwf h
      refine ⟨?_, ihwf⟩
      intro m hm
      rcases List.mem_cons.mp hm with rfl | hm'
      · exact hg
      · exact ihn m hm'

theorem reachAt_nil (r : Bool) (fls : List String) (subs : SubDirs) :
    reachAt (.node r fls subs) [] =
      if r = true then some (DirTree.node r fls subs) else none := rfl

theorem reachAt_cons (r : Bool) (fls : List String) (subs : SubDirs) (n : String)
    (rest : List String) :
    reachAt (.node r fls subs) (n :: rest) =
      if r = true then
        (match SubDirs.findName subs n with
         | some c => reachAt c rest
         | none => none)
      else none := rfl

theorem walkFrom_node (r : Bool) (fls : List String) (subs : SubDirs)
    (pre : List String) :
    walkFrom (.node r fls subs) pre =
      if r then (pre, fls) :: walkSubsFrom subs pre else [] := rfl

theorem walkSubsFrom_cons (n : String) (c : DirTree) (rest : SubDirs)
    (pre : List String) :
    walkSubsFrom (.cons n c rest) pre =
      walkFrom c (pre ++ [n]) ++ walkSubsFrom rest pre := rfl

theorem walkSubsFrom_mem :
    ∀ (subs : SubDirs) (pre : List String) (q : List String × List String),
      q ∈ walkSubsFrom subs pre ↔
        ∃ n c, (n, c) ∈ subs.toList ∧ q ∈ walkFrom c (pre ++ [n])
  | .nil, pre, q => by simp [walkSubsFrom, SubDirs.toList]
  | .cons n c rest, pre, q => by
    rw [walkSubsFrom_cons, List.mem_append, walkSubsFrom_mem rest pre q]
    constructor
    · rintro (h | ⟨m, c', hmem, h⟩)
      · exact ⟨n, c, by simp [SubDirs.toList], h⟩
      · refine ⟨m, c', ?_, h⟩
        simp only [SubDirs.toList, List.mem_cons]
        exact Or.inr hmem
    · rintro ⟨m, c', hmem, h⟩
      rcases (by simpa [SubDirs.toList] using hmem :
          (m = n ∧ c' = c) ∨ (m, c') ∈ rest.toList) with ⟨rfl, rfl⟩ | hmem'
      · exact Or.inl h
      · exact Or.inr ⟨m, c', hmem', h⟩

theorem sizeOf_toList_lt :
    ∀ (subs : SubDirs) (n : String) (c : DirTree),
      (n, c) ∈ subs.toList → sizeOf c < sizeOf subs
  | .nil, n, c, h => by simp [SubDirs.toList] at h
  | .cons n' t rest, n, c, h => by
    rcases (by simpa [SubDirs.toList] using h :
        (n = n' ∧ c = t) ∨ (n, c) ∈ rest.toList) with ⟨rfl, rfl⟩ | hmem
    · simp
      try omega
    · have := sizeOf_toList_lt rest n c hmem
      simp
      try omega

theorem sizeOf_subs_lt (r : Bool) (fls : List String) (subs : SubDirs) :
    sizeOf subs < sizeOf (DirTree.node r fls subs) := by
  simp
  try omega

/-- Membership in the walk of a well-formed tree: exactly the pairs
`(pre ++ s, files)` of directories reachable through scannable parents. -/
theorem walk_mem_aux :
    ∀ N : Nat, ∀ t : DirTree, sizeOf t ≤ N → DirTree.wfB t = true →
      ∀ (pre : List String) (q : List String × List String),
        q ∈ walkFrom t pre ↔
          ∃ s d, reachAt t s = some d ∧ q = (pre ++ s, DirTree.files d) := by
  intro N
  induction N with
  | zero =>
    intro t hsz
    exact absurd hsz (by rcases t with ⟨r, fls, subs⟩; simp; try omega)
  | succ N ih =>
    intro t hsz hwf pre q
    rcases t with ⟨r, fls, subs⟩
    obtain ⟨hnd, hall⟩ := (wfB_unfold r fls subs).mp hwf
    rw [walkFrom_node]
    by_cases hr : r = true
    · rw [if_pos hr, List.mem_cons, walkSubsFrom_mem]
      constructor
      · rintro (rfl | ⟨n, c, hmem, hq⟩)
        · refine ⟨[], .node r fls subs, ?_, by simp [DirTree.files]⟩
          rw [reachAt_nil, if_pos hr]
        · have hszc : sizeOf c ≤ N := by
            have h1 := sizeOf_toList_lt subs n c hmem
            have h2 := sizeOf_subs_lt r fls subs
            omega
          have hcwf := (wfAll_mem subs n c hall hmem).2
          rw [ih c hszc hcwf (pre ++ [n]) q] at hq
          obtain ⟨s, d, hreach, rfl⟩ := hq
          refine ⟨n :: s, d, ?_, by simp⟩
          rw [reachAt_cons, if_pos hr, mem_findName subs n c hnd hmem]
          exact hreach
      · rintro ⟨s, d, hreach, rfl⟩
        cases s with
        | nil =>
          rw [reachAt_nil, if_pos hr] at hreach
          simp only [Option.some.injEq] at hreach
          subst hreach
          left
          simp [DirTree.files]
        | cons n s' =>
          rw [reachAt_cons, if_pos hr] at hreach
          cases hfn : SubDirs.findName subs n with
          | none => rw [hfn] at hreach; exact absurd hreach (by simp)
          | some c =>
            rw [hfn] at hreach
            right
            have hmem := findName_mem subs n c hfn
            have hszc : sizeOf c ≤ N := by
              have h1 := sizeOf_toList_lt subs n c hmem
              have h2 := sizeOf_subs_lt r fls subs
              omega
            have hcwf := (wfAll_mem subs n c hall hmem).2
            refine ⟨n, c, hmem, ?_⟩
            rw [ih c hszc hcwf (pre ++ [n])]
            exact ⟨s', d, hreach, by simp⟩
    · rw [if_neg hr]
      constructor
      · intro h
        exact absurd h (List.not_mem_nil q)
      · rintro ⟨s, d, hreach, -⟩
        cases s with
        | nil =>
          rw [reachAt_nil, if_neg hr] at hreach
          exact absurd hreach (by simp)
        | cons n s' =>
          rw [reachAt_cons, if_neg hr] at hreach
          exact absurd hreach (by simp)

theorem walkFrom_mem_iff (t : DirTree) (hwf : DirTree.wfB t = true)
    (pre : List String) (q : List String × List String) :
    q ∈ walkFrom t pre ↔
      ∃ s d, reachAt t s = some d ∧ q = (pre ++ s, DirTree.files d) :=
  walk_mem_aux (sizeOf t) t le_rfl hwf pre q

/-- Every walked entry's path extends the prefix (no well-formedness
needed). -/
theorem walk_shape_aux :
    ∀ N : Nat, ∀ t : DirTree, sizeOf t ≤ N →
      ∀ (pre : List String) (q : List String × List String),
        q ∈ walkFrom t pre → ∃ s, q.1 = pre ++ s := by
  intro N
  induction N with
  | zero =>
    intro t hsz
    exact absurd hsz (by rcases t with ⟨r, fls, subs⟩; simp; try omega)
  | succ N ih =>
    intro t hsz pre q hq
    rcases t with ⟨r, fls, subs⟩
    rw [walkFrom_node] at hq
    by_cases hr : r = true
    · rw [if_pos hr, List.mem_cons, walkSubsFrom_mem] at hq
      rcases hq with rfl | ⟨n, c, hmem, hq⟩
      · exact ⟨[], by simp⟩
      · have hszc : sizeOf c ≤ N := by
          have h1 := sizeOf_toList_lt subs n c hmem
          have h2 := sizeOf_subs_lt r fls subs
          omega
        obtain ⟨s, hs⟩ := ih c hszc (pre ++ [n]) q hq
        exact ⟨n :: s, by simp [hs]⟩
    · rw [if_neg hr] at hq
      exact absurd hq (List.not_mem_nil q)

/-- The walked paths of a well-formed tree are pairwise distinct. -/
theorem walk_nodup_combined :
    ∀ N : Nat,
      (∀ t : DirTree, sizeOf t ≤ N → DirTree.wfB t = true →
        ∀ pre, ((walkFrom t pre).map Prod.fst).Nodup) ∧
      (∀ subs : SubDirs, sizeOf subs ≤ N → (subsNames subs).Nodup →
        SubDirs.wfAll subs = true →
        ∀ pre, ((walkSubsFrom subs pre).map Prod.fst).Nodup) := by
  intro N
  induction N with
  | zero =>
    constructor
    · intro t hsz
      exact absurd hsz (by rcases t with ⟨r, fls, subs⟩; simp; try omega)
    · intro subs hsz
      exact absurd hsz (by cases subs <;> simp)
  | succ N ih =>
    constructor
    · intro t hsz hwf pre
      rcases t with ⟨r, fls, subs⟩
      obtain ⟨hnd, hall⟩ := (wfB_unfold r fls subs).mp hwf
      rw [walkFrom_node]
      by_cases hr : r = true
      · rw [if_pos hr, List.map_cons]
        rw [List.nodup_cons]
        constructor
        · intro hpre
          obtain ⟨q, hq, hq1⟩ := List.mem_map.mp hpre
          obtain ⟨n, c, hmem, hqc⟩ := (walkSubsFrom_mem subs pre q).mp hq
          have hszc : sizeOf c ≤ N := by
            have h1 := sizeOf_toList_lt subs n c hmem
            have h2 := sizeOf_subs_lt r fls subs
            omega
          obtain ⟨s, hs⟩ := walk_shape_aux N c hszc (pre ++ [n]) q hqc
          rw [hq1] at hs
          have := congrArg List.length hs
          simp at this
        · have hszs : sizeOf subs ≤ N := by
            have := sizeOf_subs_lt r fls subs
            omega
          exact ih.2 subs hszs hnd hall pre
      · rw [if_neg hr]
        simp
    · intro subs hsz hnd hall pre
      cases subs with
      | nil => simp [walkSubsFrom]
      | cons n c rest =>
        rw [show SubDirs.wfAll (.cons n c rest) =
          (goodNameB n && DirTree.wfB c && SubDirs.wfAll rest) from rfl,
          Bool.and_eq_true, Bool.and_eq_true] at hall
        have hnd' := by simpa [subsNames] using hnd
        rw [walkSubsFrom_cons, List.map_append, List.nodup_append]
        have hszc : sizeOf c ≤ N := by simp at hsz; omega
        have hszr : sizeOf rest ≤ N := by simp at hsz; omega
        refine ⟨ih.1 c hszc hall.1.2 (pre ++ [n]),
          ih.2 rest hszr hnd'.2 hall.2 pre, ?_⟩
        intro p hp1 hp2
        obtain ⟨q1, hq1, hq1e⟩ := List.mem_map.mp hp1
        obtain ⟨q2, hq2, hq2e⟩ := List.mem_map.mp hp2
        obtain ⟨s1, hs1⟩ := walk_shape_aux N c hszc (pre ++ [n]) q1 hq1
        obtain ⟨m, c', hmem2, hq2c⟩ := (walkSubsFrom_mem rest pre q2).mp hq2
        have hszc' : sizeOf c' ≤ N := by
          have h1 := sizeOf_toList_lt rest m c' hmem2
          simp at hsz
          omega
        obtain ⟨s2, hs2⟩ := walk_shape_aux N c' hszc' (pre ++ [m]) q2 hq2c
        rw [hq1e] at hs1
        rw [hq2e] at hs2
        rw [hs1] at hs2
        have hnm : n = m := by
          rw [List.append_assoc, List.append_assoc] at hs2
          have h2 := List.append_cancel_left hs2
          rw [List.singleton_append, List.singleton_append] at h2
          injection h2
        have : m ∈ subsNames rest := mem_toList_name rest m c' hmem2
        rw [← hnm] at this
        exact absurd this hnd'.1

theorem strData_append (a b : String) : (a ++ b).data = a.data ++ b.data := by
  cases a
  cases b
  rfl

theorem goodNameB_iff (n : String) :
    goodNameB n = true ↔ n.data ≠ [] ∧ '/' ∉ n.data := by
  simp [goodNameB]

theorem charsOf_nil : charsOf [] = [] := rfl

theorem charsOf_cons (x : String) (rest : List String) :
    charsOf (x :: rest) = ('/' :: x.data) ++ charsOf rest := by
  simp [charsOf]

theorem foldl_join_data :
    ∀ (l : List String) (acc : String),
      (l.foldl (fun a x => a ++ "/" ++ x) acc).data = acc.data ++ charsOf l
  | [], acc => by simp [charsOf]
  | x :: rest, acc => by
    rw [List.foldl_cons, foldl_join_data rest (acc ++ "/" ++ x), charsOf_cons,
      strData_append, strData_append]
    have hslash : ("/" : String).data = ['/'] := rfl
    rw [hslash]
    simp [List.append_assoc]

theorem relEntry_cons_data (n : String) (rest : List String) :
    (relEntry (n :: rest)).data = n.data ++ charsOf rest := by
  unfold relEntry
  exact foldl_join_data rest n

theorem noslash_append_cancel :
    ∀ (a b r s : List Char), '/' ∉ a → '/' ∉ b → a ++ '/' :: r = b ++ '/' :: s →
      a = b ∧ r = s
  | [], [], r, s, _, _, h => by
    simp only [List.nil_append] at h
    injection h with _ h2
    exact ⟨rfl, h2⟩
  | [], c :: b', r, s, ha, hb, h => by
    simp only [List.nil_append, List.cons_append] at h
    injection h with h1 h2
    subst h1
    exact absurd (List.mem_cons_self _ _) hb
  | a0 :: a', [], r, s, ha, hb, h => by
    simp only [List.nil_append, List.cons_append] at h
    injection h with h1 h2
    subst h1
    exact absurd (List.mem_cons_self _ _) ha
  | a0 :: a', b0 :: b', r, s, ha, hb, h => by
    simp only [List.cons_append] at h
    injection h with h1 h2
    subst h1
    obtain ⟨he, hrs⟩ := noslash_append_cancel a' b' r s
      (fun hm => ha (List.mem_cons_of_mem _ hm))
      (fun hm => hb (List.mem_cons_of_mem _ hm)) h2
    exact ⟨by rw [he], hrs⟩

theorem chars_inj :
    ∀ (rl : List String) (a b : List Char) (sl : List String),
      '/' ∉ a → '/' ∉ b →
      (∀ x ∈ rl, '/' ∉ x.data) → (∀ x ∈ sl, '/' ∉ x.data) →
      a ++ charsOf rl = b ++ charsOf sl → a = b ∧ rl = sl
  | [], a, b, [], _, _, _, _, h => by
    rw [charsOf_nil, List.append_nil, List.append_nil] at h
    exact ⟨h, rfl⟩
  | [], a, b, y :: sl', ha, _, _, _, h => by
    exfalso
    rw [charsOf_nil, charsOf_cons, List.append_nil] at h
    simp only [List.cons_append] at h
    apply ha
    rw [h]
    exact List.mem_append_right b (List.mem_cons_self _ _)
  | x :: rl', a, b, [], _, hb, _, _, h => by
    exfalso
    rw [charsOf_nil, charsOf_cons, List.append_nil] at h
    simp only [List.cons_append] at h
    apply hb
    rw [← h]
    exact List.mem_append_right a (List.mem_cons_self _ _)
  | x :: rl', a, b, y :: sl', ha, hb, hr, hs, h => by
    rw [charsOf_cons, charsOf_cons] at h
    simp only [List.cons_append] at h
    obtain ⟨hab, h2⟩ := noslash_append_cancel a b _ _ ha hb h
    obtain ⟨hxy, hrest⟩ := chars_inj rl' x.data y.data sl'
      (hr x (List.mem_cons_self _ _)) (hs y (List.mem_cons_self _ _))
      (fun z hz => hr z (List.mem_cons_of_mem _ hz))
      (fun z hz => hs z (List.mem_cons_of_mem _ hz)) h2
    have hxey : x = y := by
      cases x
      cases y
      exact congrArg String.mk (by simpa using hxy)
    exact ⟨hab, by rw [hxey, hrest]⟩

theorem relEntry_inj :
    ∀ (ss ts : List String), ss ≠ [] → ts ≠ [] →
      (∀ x ∈ ss, goodNameB x = true) → (∀ x ∈ ts, goodNameB x = true) →
      relEntry ss = relEntry ts → ss = ts
  | [], _, hss, _, _, _, _ => absurd rfl hss
  | _ :: _, [], _, hts, _, _, _ => absurd rfl hts
  | n :: rest, m :: rest2, _, _, hgs, hgt, h => by
    have hd := congrArg String.data h
    rw [relEntry_cons_data, relEntry_cons_data] at hd
    have hn := (goodNameB_iff n).mp (hgs n (List.mem_cons_self _ _))
    have hm := (goodNameB_iff m).mp (hgt m (List.mem_cons_self _ _))
    obtain ⟨hab, hrest⟩ := chars_inj rest n.data m.data rest2 hn.2 hm.2
      (fun x hx => ((goodNameB_iff x).mp (hgs x (List.mem_cons_of_mem _ hx))).2)
      (fun x hx => ((goodNameB_iff x).mp (hgt x (List.mem_cons_of_mem _ hx))).2) hd
    have hnm : n = m := by
      cases n
      cases m
      exact congrArg String.mk (by simpa using hab)
    rw [hnm, hrest]

theorem relEntry_ne_sentinel (n : String) (rest : List String)
    (hg : goodNameB n = true) : relEntry (n :: rest) ≠ "/ (root)" := by
  intro h
  have hd := congrArg String.data h
  rw [relEntry_cons_data] at hd
  have hn := (goodNameB_iff n).mp hg
  cases hne : n.data with
  | nil => exact hn.1 hne
  | cons c cs =>
    rw [hne] at hd
    simp only [List.cons_append] at hd
    injection hd with h1 h2
    subst h1
    exact hn.2 (by rw [hne]; exact List.mem_cons_self _ _)

theorem dirAt_nil' (t : DirTree) : dirAt t [] = some t := by
  rcases t with ⟨r, fls, subs⟩
  rfl

/-- Membership in the collected navigation entries of a well-formed tree. -/
theorem navEntries_mem (t : DirTree) (hwf : DirTree.wfB t = true) (e : String) :
    e ∈ navEntries t ↔
      ∃ s d, reachAt t s = some d ∧ "CLAUDE.md" ∈ DirTree.files d ∧
        e = relEntry s := by
  unfold navEntries
  rw [List.mem_map]
  constructor
  · rintro ⟨q, hq, rfl⟩
    obtain ⟨hqw, hmk⟩ := List.mem_filter.mp hq
    obtain ⟨s, d, hreach, rfl⟩ := (walkFrom_mem_iff t hwf [] q).mp hqw
    exact ⟨s, d, hreach, by simpa using hmk, by simp⟩
  · rintro ⟨s, d, hreach, hmem, rfl⟩
    refine ⟨([] ++ s, DirTree.files d), ?_, by simp⟩
    rw [List.mem_filter]
    exact ⟨(walkFrom_mem_iff t hwf [] _).mpr ⟨s, d, hreach, rfl⟩, by simpa using hmem⟩

/-- The collected navigation entries of a well-formed tree are duplicate
free. -/
theorem navEntries_nodup (t : DirTree) (hwf : DirTree.wfB t = true) :
    (navEntries t).Nodup := by
  have hnames : ∀ (s : List String) (d : DirTree), reachAt t s = some d →
      ∀ n ∈ s, goodNameB n = true := fun s d hr =>
    (dirAt_names_good s t d hwf (reachAt_dirAt s t d hr).1).1
  unfold navEntries
  have hfil : ((walkFrom t []).filter fun q => decide ("CLAUDE.md" ∈ q.2)).Nodup :=
    List.Nodup.filter _
      (List.Nodup.of_map Prod.fst ((walk_nodup_combined (sizeOf t)).1 t le_rfl hwf []))
  refine List.Nodup.map_on ?_ hfil
  intro x hx y hy hrel
  obtain ⟨s1, d1, hr1, hx1⟩ :=
    (walkFrom_mem_iff t hwf [] x).mp (List.mem_filter.mp hx).1
  obtain ⟨s2, d2, hr2, hy1⟩ :=
    (walkFrom_mem_iff t hwf [] y).mp (List.mem_filter.mp hy).1
  rw [hx1, hy1] at hrel ⊢
  simp only [List.nil_append] at hrel ⊢
  have hss : s1 = s2 := by
    cases s1 with
    | nil =>
      cases s2 with
      | nil => rfl
      | cons m s2' =>
        exact absurd hrel.symm
          (relEntry_ne_sentinel m s2' (hnames _ _ hr2 m (List.mem_cons_self _ _)))
    | cons n s1' =>
      cases s2 with
      | nil =>
        exact absurd hrel
          (relEntry_ne_sentinel n s1' (hnames _ _ hr1 n (List.mem_cons_self _ _)))
      | cons m s2' =>
        exact relEntry_inj (n :: s1') (m :: s2') (by simp) (by simp)
          (hnames _ _ hr1) (hnames _ _ hr2) hrel
  subst hss
  rw [hr1] at hr2
  simp only [Option.some.injEq] at hr2
  rw [hr2]

/-- C7: the walker reports the sentinel iff the root holds the marker, one
entry per marker directory, without duplicates (fully readable, well-formed
vault). -/
theorem c7_marker_dirs :
    ∀ t : DirTree, DirTree.wfB t = true → DirTree.allReadB t = true →
      (("/ (root)") ∈ navEntries t ↔ "CLAUDE.md" ∈ DirTree.files t) ∧
        (navEntries t).Nodup ∧
        (∀ segs : List String, segs ≠ [] → (∀ n ∈ segs, goodNameB n = true) →
          ((∃ d, dirAt t segs = some d ∧ "CLAUDE.md" ∈ DirTree.files d) ↔
            relEntry segs ∈ navEntries t)) := by
  intro t hwf har
  refine ⟨⟨?_, ?_⟩, navEntries_nodup t hwf, ?_⟩
  · intro h
    obtain ⟨s, d, hreach, hmk, hrel⟩ := (navEntries_mem t hwf _).mp h
    cases s with
    | nil =>
      have hd := (reachAt_dirAt [] t d hreach).1
      rw [dirAt_nil'] at hd
      simp only [Option.some.injEq] at hd
      rw [hd]
      exact hmk
    | cons n s' =>
      exfalso
      have hg := (dirAt_names_good (n :: s') t d hwf (reachAt_dirAt _ t d hreach).1).1
      exact relEntry_ne_sentinel n s' (hg n (List.mem_cons_self _ _)) hrel.symm
  · intro h
    exact (navEntries_mem t hwf _).mpr
      ⟨[], t, allReadB_reach [] t t har (dirAt_nil' t), h, rfl⟩
  · intro segs hne hgood
    constructor
    · rintro ⟨d, hdir, hmk⟩
      exact (navEntries_mem t hwf _).mpr
        ⟨segs, d, allReadB_reach segs t d har hdir, hmk, rfl⟩
    · intro h
      obtain ⟨s, d, hreach, hmk, hrel⟩ := (navEntries_mem t hwf _).mp h
      have hdd := reachAt_dirAt s t d hreach
      cases s with
      | nil =>
        exfalso
        match segs, hne with
        | n :: rest, _ =>
          exact relEntry_ne_sentinel n rest (hgood n (List.mem_cons_self _ _)) hrel
      | cons n s' =>
        have hg := (dirAt_names_good (n :: s') t d hwf hdd.1).1
        have hseq : segs = n :: s' :=
          relEntry_inj segs (n :: s') hne (by simp) hgood hg hrel
        rw [hseq]
        exact ⟨d, hdd.1, hmk⟩

/-- C7 witness: on a concrete fully readable vault with markers at the root
and in `Folder`, the sentinel is reported. -/
theorem c7_witness : ("/ (root)") ∈ navEntries navTreeW :=
  ((c7_marker_dirs navTreeW (by decide) (by decide)).1).mpr (by decide)

/-- C3 (amended): the walker never signals an error — `os.walk` with the
default `onerror` silently ignores directory-read failures, so unreadable
directories are skipped rather than reported — and a well-formed vault with
no marker file anywhere yields the empty list with count 0. -/
theorem c3_amended :
    (∀ t : DirTree, list_navigation_files t =
      .ok { available_navigation := navEntries t
            total_count := (navEntries t).length
            vault_path := pathStr VAULT_PATH
            target_folder := pathStr TARGET_FOLDER_PATH }) ∧
    (∀ t : DirTree, DirTree.wfB t = true →
      (∀ segs d, dirAt t segs = some d → "CLAUDE.md" ∉ DirTree.files d) →
      list_navigation_files t =
        .ok { available_navigation := []
              total_count := 0
              vault_path := pathStr VAULT_PATH
              target_folder := pathStr TARGET_FOLDER_PATH }) := by
  constructor
  · intro t
    rfl
  · intro t hwf hno
    unfold list_navigation_files
    have hempty : navEntries t = [] := by
      unfold navEntries
      rw [List.map_eq_nil_iff, List.filter_eq_nil_iff]
      intro q hq
      obtain ⟨s, d, hreach, rfl⟩ := (walkFrom_mem_iff t hwf [] q).mp hq
      simpa using hno s d (reachAt_dirAt s t d hreach).1
    rw [hempty]
    rfl

/-- C3 counterexample: a permission failure occurs while traversing (the
subdirectory `locked`, holding a marker file, is unreadable), yet the
operation returns a successful listing that silently omits it instead of
signalling a `FilesystemError`. -/
theorem c3_error_cex :
    dirAt lockedTree ["locked"] = some (DirTree.node false ["CLAUDE.md"] SubDirs.nil) ∧
      DirTree.readable (DirTree.node false ["CLAUDE.md"] SubDirs.nil) = false ∧
      "CLAUDE.md" ∈ DirTree.files (DirTree.node false ["CLAUDE.md"] SubDirs.nil) ∧
      list_navigation_files lockedTree =
        .ok { available_navigation := ["/ (root)"]
              total_count := 1
              vault_path := pathStr VAULT_PATH
              target_folder := pathStr TARGET_FOLDER_PATH } := by
  decide

/-- C3 witness: a readable vault with files but no marker file yields the
empty listing with count 0, not an error. -/
theorem c3_witness :
    list_navigation_files plainTree =
      .ok { available_navigation := []
            total_count := 0
            vault_path := pathStr VAULT_PATH
            target_folder := pathStr TARGET_FOLDER_PATH } :=
  c3_amended.2 plainTree (by decide) (by
    intro segs d h
    cases segs with
    | nil =>
      rw [dirAt_nil'] at h
      simp only [Option.some.injEq] at h
      rw [← h]
      decide
    | cons n rest => exact absurd h (by simp [plainTree, dirAt, SubDirs.findName]))

/-! ## Claim C10 -/

/-- C10 (amended): every failure any operation signals is the single uniform
`ToolError` whose message is the operation's contextual wrap of the inner
failure text (nothing escapes unwrapped); the walker and the clock reader
never signal at all — and in particular the walker's directory-read failures
are silently swallowed rather than surfaced (see the counterexample). -/
theorem c10_uniform_wrap :
    (∀ (fs : FS) (e : ToolError), load_navigation_context fs = .error e →
      ∃ m, e.msg = wrapNavMsg m) ∧
    (∀ (fs : FS) (e : ToolError), load_target_folder_context fs = .error e →
      ∃ m, e.msg = wrapTgtMsg m) ∧
    (∀ (fs : FS) (sub : String) (e : ToolError),
      discover_subdirectory_navigation fs sub = .error e →
      ∃ m, e.msg = wrapDiscMsg m) ∧
    (∀ (fs : FS) (ext : String) (e : ToolError),
      list_target_folder_files fs ext = .error e → ∃ m, e.msg = wrapListMsg m) ∧
    (∀ (fs : FS) (fn : String) (e : ToolError),
      load_target_folder_file fs fn = .error e → ∃ m, e.msg = wrapLoadMsg fn m) ∧
    (∀ t : DirTree, ∃ r, list_navigation_files t = .ok r) ∧
    (∀ env : TimeEnv, ∃ r, get_current_time env = .ok r) := by
  refine ⟨?_, ?_, ?_, ?_, ?_, fun t => ⟨_, rfl⟩, fun env => ⟨_, rfl⟩⟩
  · intro fs e h
    unfold load_navigation_context at h
    match hf : fsFind fs VAULT_CLAUDE_MD with
    | none =>
      rw [hf] at h
      simp only [Except.error.injEq] at h
      rw [← h]
      exact ⟨_, rfl⟩
    | some PyNode.dir =>
      rw [hf] at h
      simp only [Except.error.injEq] at h
      rw [← h]
      exact ⟨_, rfl⟩
    | some (PyNode.file c mt sz) =>
      rw [hf] at h
      exact absurd h (by simp)
  · intro fs e h
    unfold load_target_folder_context at h
    match hf : fsFind fs TARGET_CLAUDE_MD with
    | none => rw [hf] at h; exact absurd h (by simp)
    | some PyNode.dir =>
      rw [hf] at h
      simp only [Except.error.injEq] at h
      rw [← h]
      exact ⟨_, rfl⟩
    | some (PyNode.file c mt sz) => rw [hf] at h; exact absurd h (by simp)
  · intro fs sub e h
    unfold discover_subdirectory_navigation at h
    match hf : fsFind fs (pyJoin VAULT_PATH sub) with
    | none =>
      rw [hf] at h
      simp only [Except.error.injEq] at h
      rw [← h]
      exact ⟨_, rfl⟩
    | some nd =>
      rw [hf] at h
      match hf2 : fsFind fs (pyJoin VAULT_PATH sub ++ ["CLAUDE.md"]) with
      | none => rw [hf2] at h; exact absurd h (by simp)
      | some PyNode.dir =>
        rw [hf2] at h
        simp only [Except.error.injEq] at h
        rw [← h]
        exact ⟨_, rfl⟩
      | some (PyNode.file c mt sz) => rw [hf2] at h; exact absurd h (by simp)
  · intro fs ext e h
    unfold list_target_folder_files at h
    match hf : fsFind fs TARGET_FOLDER_PATH with
    | none =>
      rw [hf] at h
      simp only [Except.error.injEq] at h
      rw [← h]
      exact ⟨_, rfl⟩
    | some (PyNode.file c mt sz) =>
      rw [hf] at h
      simp only [Except.error.injEq] at h
      rw [← h]
      exact ⟨_, rfl⟩
    | some PyNode.dir => rw [hf] at h; exact absurd h (by simp)
  · intro fs fn e h
    unfold load_target_folder_file at h
    match hf : fsFind fs (pyJoin TARGET_FOLDER_PATH fn) with
    | none =>
      rw [hf] at h
      simp only [Except.error.injEq] at h
      rw [← h]
      exact ⟨_, rfl⟩
    | some PyNode.dir =>
      rw [hf] at h
      simp only [Except.error.injEq] at h
      rw [← h]
      exact ⟨_, rfl⟩
    | some (PyNode.file c mt sz) => rw [hf] at h; exact absurd h (by simp)

/-- C10 counterexample: a directory-read failure during the walk (unreadable
marker directory `hidden`) is silently swallowed — the operation reports a
successful listing that omits it, surfacing no error to the caller. -/
theorem c10_swallow_cex :
    dirAt hiddenTree ["hidden"] = some (DirTree.node false ["CLAUDE.md"] SubDirs.nil) ∧
      DirTree.readable (DirTree.node false ["CLAUDE.md"] SubDirs.nil) = false ∧
      "CLAUDE.md" ∈ DirTree.files (DirTree.node false ["CLAUDE.md"] SubDirs.nil) ∧
      list_navigation_files hiddenTree =
        .ok { available_navigation := ["a"]
              total_count := 1
              vault_path := pathStr VAULT_PATH
              target_folder := pathStr TARGET_FOLDER_PATH } := by
  decide

/-- C10 witness: a concrete failure (missing vault marker) surfaces as the
uniform wrapped error. -/
theorem c10_witness :
    ∃ m, ToolError.msg
        ⟨wrapNavMsg ("Navigation file not found at " ++ pathStr VAULT_CLAUDE_MD)⟩ =
      wrapNavMsg m :=
  c10_uniform_wrap.1 []
    ⟨wrapNavMsg ("Navigation file not found at " ++ pathStr VAULT_CLAUDE_MD)⟩
    (by decide)

/-- C9 witness: an existing subdirectory without a marker yields a non-error
`loaded := false` result. -/
theorem c9_witness :
    discover_subdirectory_navigation fsYoga "Yoga" =
      .ok { path := pathStr (pyJoin VAULT_PATH "Yoga" ++ ["CLAUDE.md"])
            content := ""
            loaded := false
            message := "No CLAUDE.md found in " ++ "Yoga" } :=
  (c9_discover fsYoga "Yoga").2.1 PyNode.dir (by decide) (by decide)
